import Mathlib

/-!
# Hash join (`server.go`): embedding and verification

A shallow embedding of the join engine of `server.go`: `joinRow`,
`makeEmptyRow`, `buildTable`, `innerJoin`, `outerJoin` and `product`.

* A Go `map[string]any` row is a `Row`: its entries, one per field name.
  Reading a field that is absent gives Go's zero value `nil` (`Row.index`).
* A Go `map[any][]map[string]any` is an `Index`: its entries, looked up with
  Go's `==` on interface values (`Value.goEq`).
* A run-time panic (indexing an empty slice) is the result `none`.
* A `nil` slice of rows is the empty list.
-/

namespace HashJoin

/-! ## Values -/

/-- A value held in a field of a row (Go's `any`), restricted to the scalar
dynamic types that can be used as map keys: the `nil` interface, `bool`,
`int`, `float64` (given by its IEEE-754 bit pattern, read modulo `2^64`) and
`string`. -/
inductive Value where
  | null
  | bool (b : Bool)
  | int (n : Int)
  | float (bits : Nat)
  | str (s : String)
  deriving DecidableEq

/-- The bit pattern is a NaN: exponent all ones, mantissa not zero. -/
def floatIsNaN (bits : Nat) : Bool :=
  (bits / 2 ^ 52) % 2 ^ 11 == 2 ^ 11 - 1 && bits % 2 ^ 52 != 0

/-- The bit pattern is `+0` or `-0`: everything but the sign bit is zero. -/
def floatIsZero (bits : Nat) : Bool :=
  bits % 2 ^ 63 == 0

/-- Go's `==` on two `float64` bit patterns: a NaN equals nothing, the two
zeros are equal, and otherwise the patterns must be the same. -/
def floatEq (a b : Nat) : Bool :=
  !floatIsNaN a && !floatIsNaN b &&
    (a % 2 ^ 64 == b % 2 ^ 64 || (floatIsZero a && floatIsZero b))

/-- Go's `==` on interface values, which is also the equality a Go map uses
for its keys: equal dynamic types and equal values. -/
def Value.goEq : Value → Value → Bool
  | .null, .null => true
  | .bool a, .bool b => a == b
  | .int a, .int b => a == b
  | .float a, .float b => floatEq a b
  | .str a, .str b => a == b
  | _, _ => false

/-! ## Rows: `map[string]any` -/

/-- A row: the entries of a Go `map[string]any`, at most one per field name.
The order of the entries is one of the orders a `range` may visit them in. -/
structure Row where
  entries : List (String × Value)
  nodupKeys : (entries.map Prod.fst).Nodup
  deriving DecidableEq

/-- The map made by `make(map[string]any)`. -/
def Row.empty : Row := ⟨[], List.nodup_nil⟩

/-- The two-result read `v, ok := row[k]`: `none` when the field is absent. -/
def Row.get (row : Row) (k : String) : Option Value :=
  (row.entries.find? (fun e => e.1 == k)).map Prod.snd

/-- The read `row[k]`: the zero value `nil` when the field is absent. -/
def Row.index (row : Row) (k : String) : Value :=
  (row.get k).getD Value.null

/-- The assignment `row[k] = v`: the entry for `k`, if any, is replaced. -/
def Row.set (row : Row) (k : String) (v : Value) : Row :=
  ⟨(k, v) :: row.entries.filter (fun e => e.1 != k), by
    rw [List.map_cons, List.nodup_cons]
    refine ⟨?_, row.nodupKeys.sublist ((List.filter_sublist _).map Prod.fst)⟩
    intro hmem
    rcases List.mem_map.1 hmem with ⟨e, he, hk⟩
    have hne := (List.mem_filter.1 he).2
    simp [hk] at hne⟩

/-- A row from a list of field assignments, made in order (a map literal). -/
def Row.ofList (l : List (String × Value)) : Row :=
  l.foldl (fun row e => row.set e.1 e.2) Row.empty

/-- Source `joinRow`: copy every field of `leftRow`, then every field of
`rightRow`, into a fresh map. -/
def joinRow (leftRow rightRow : Row) : Row :=
  let joinedRow := Row.empty
  let joinedRow := leftRow.entries.foldl (fun joined e => joined.set e.1 e.2) joinedRow
  let joinedRow := rightRow.entries.foldl (fun joined e => joined.set e.1 e.2) joinedRow
  joinedRow

/-- Source `makeEmptyRow`: a fresh map with every field name of `row` set to
`nil`. -/
def makeEmptyRow (row : Row) : Row :=
  let emptyRow := Row.empty
  let emptyRow := row.entries.foldl (fun empty e => empty.set e.1 Value.null) emptyRow
  emptyRow

/-! ## The hash index: `map[any][]map[string]any` -/

/-- The entries of a Go `map[any][]map[string]any`. -/
abbrev Index := List (Value × List Row)

/-- The read `index[k]` as a slice that may be `nil`: `none` is the `nil`
slice a Go map gives for a key it does not hold. -/
def Index.get (index : Index) (k : Value) : Option (List Row) :=
  (index.find? (fun e => Value.goEq e.1 k)).map Prod.snd

/-- The assignment `index[k] = bucket`: the entry whose key is `==` to `k` is
overwritten, and a new entry is added when there is none. -/
def Index.set : Index → Value → List Row → Index
  | [], k, bucket => [(k, bucket)]
  | (k', bucket') :: index, k, bucket =>
    if Value.goEq k' k then (k', bucket) :: index
    else (k', bucket') :: Index.set index k bucket

/-- Source `buildTable`: for every row, in order,
`buildTable[key] = append(buildTable[key], item)`. -/
def buildTable (rightList : List Row) (joinableKey : String) : Index :=
  rightList.foldl
    (fun table item =>
      let key := item.index joinableKey
      table.set key ((table.get key).getD [] ++ [item]))
    []

/-! ## The joins -/

/-- Source `innerJoin`. -/
def innerJoin (buildList probeList : List Row) (joinableKey : String) : List Row :=
  let buildTableMap := buildTable buildList joinableKey
  probeList.foldl
    (fun result item =>
      let key := item.index joinableKey
      match buildTableMap.get key with
      | some find => find.foldl (fun result b => result ++ [joinRow item b]) result
      | none => result)
    []

/-- Source `outerJoin`. `buildList[0]` panics on an empty build list, before
anything else is done: the result is then `none`. -/
def outerJoin (buildList probeList : List Row) (joinableKey : String) : Option (List Row) :=
  match buildList.head? with
  | none => none
  | some first =>
    let emptyRow := makeEmptyRow first
    let buildTableCol := buildTable buildList joinableKey
    some (probeList.foldl
      (fun result item =>
        let key := item.index joinableKey
        match buildTableCol.get key with
        | some find => find.foldl (fun result b => result ++ [joinRow item b]) result
        | none => result ++ [joinRow emptyRow item])
      [])

/-- Source `product`: the dispatch on the join type; any other token falls
through to `return nil`. -/
def product (leftList rightList : List Row) (joinableKey joinType : String) :
    Option (List Row) :=
  if joinType = "inner" then some (innerJoin leftList rightList joinableKey)
  else if joinType = "right" then outerJoin leftList rightList joinableKey
  else if joinType = "left" then outerJoin rightList leftList joinableKey
  else some []


/-! ## The spec-side reference definitions -/

/-- The build rows whose value at `key` is `==` to `v`, in build order. -/
def matching (build : List Row) (key : String) (v : Value) : List Row :=
  build.filter (fun b => Value.goEq (b.index key) v)

/-- The slice a lookup gives when `ms` are the rows found: `nil` for none. -/
def bucketOf (ms : List Row) : Option (List Row) :=
  if ms.isEmpty then none else some ms

/-- The nested-loop reference join: for each probe row `p`, in probe order,
and each build row `b`, in build order, whose value at `key` equals the one
of `p`, the row `joinRow p b`. -/
def nestedLoopJoin (build probe : List Row) (key : String) : List Row :=
  probe.flatMap (fun p =>
    (build.filter (fun b => Value.goEq (b.index key) (p.index key))).map
      (fun b => joinRow p b))

/-- The outer join as the spec words it: for each probe row `p`, in probe
order, its matches `joinRow p b` in build order when there is at least one,
and otherwise the single row `joinRow padding p`. -/
def paddedJoin (padding : Row) (build probe : List Row) (key : String) : List Row :=
  probe.flatMap (fun p =>
    if build.any (fun b => Value.goEq (b.index key) (p.index key)) then
      (build.filter (fun b => Value.goEq (b.index key) (p.index key))).map
        (fun b => joinRow p b)
    else [joinRow padding p])

/-- The field names of a row, as `for key := range row` visits them. -/
def Row.fields (row : Row) : List String :=
  row.entries.map Prod.fst

/-- The row `row` is `joinRow p b` for a probe row `p` and a build row `b`
with equal key values, and holds the value of `b` on every field of `b`. -/
def JoinedFrom (build probe : List Row) (key : String) (row : Row) : Prop :=
  ∃ p ∈ probe, ∃ b ∈ build,
    Value.goEq (b.index key) (p.index key) = true ∧ row = joinRow p b ∧
      ∀ k v, b.get k = some v → row.get k = some v

/-- The row `row` is the padded row `joinRow padding p` of a probe row `p`
that has no matching build row. -/
def PaddedFrom (padding : Row) (build probe : List Row) (key : String) (row : Row) : Prop :=
  ∃ p ∈ probe,
    (∀ b ∈ build, Value.goEq (b.index key) (p.index key) = false) ∧
      row = joinRow padding p

/-! ## Example rows -/

/-- The row `{assetId: 1, name: "A"}`. -/
def asset1 : Row := Row.ofList [("assetId", .int 1), ("name", .str "A")]

/-- The row `{assetId: 1, region: "Y"}`. -/
def report1 : Row := Row.ofList [("assetId", .int 1), ("region", .str "Y")]

/-- The row `{assetId: 2, region: "X"}`. -/
def report2 : Row := Row.ofList [("assetId", .int 2), ("region", .str "X")]

/-- The row `{region: "Z"}`, which has no `assetId`. -/
def reportNoId : Row := Row.ofList [("region", .str "Z")]

/-- The row `{name: "B"}`, which has no `assetId`. -/
def assetNoId : Row := Row.ofList [("name", .str "B")]

/-! ## Go's `==` is a partial equivalence -/

theorem floatEq_symm (a b : Nat) : floatEq a b = floatEq b a := by
  unfold floatEq
  rw [Bool.and_comm (!floatIsNaN a), Bool.and_comm (floatIsZero a),
    @BEq.comm _ _ _ (a % 2 ^ 64) (b % 2 ^ 64)]

theorem floatEq_trans {a b c : Nat} (hab : floatEq a b = true) (hbc : floatEq b c = true) :
    floatEq a c = true := by
  unfold floatEq at *
  simp only [Bool.and_eq_true, Bool.or_eq_true, Bool.not_eq_true', beq_iff_eq] at *
  obtain ⟨⟨ha, hb⟩, h1⟩ := hab
  obtain ⟨⟨_, hc⟩, h2⟩ := hbc
  refine ⟨⟨ha, hc⟩, ?_⟩
  unfold floatIsZero at *
  simp only [beq_iff_eq] at *
  omega

theorem Value.goEq_symm (a b : Value) : Value.goEq a b = Value.goEq b a := by
  cases a <;> cases b <;> simp [Value.goEq, floatEq_symm, eq_comm, Bool.beq_comm]

theorem Value.goEq_trans {a b c : Value} (hab : Value.goEq a b = true)
    (hbc : Value.goEq b c = true) : Value.goEq a c = true := by
  cases a <;> cases b <;> simp [Value.goEq] at hab <;>
    cases c <;> simp [Value.goEq] at hbc ⊢
  · simp [hab, hbc]
  · simp [hab, hbc]
  · exact floatEq_trans hab hbc
  · simp [hab, hbc]

/-! ## Lookups in the hash index -/

theorem Index.get_nil (q : Value) : Index.get [] q = none := rfl

theorem Index.get_cons (k : Value) (bucket : List Row) (index : Index) (q : Value) :
    Index.get ((k, bucket) :: index) q =
      if Value.goEq k q then some bucket else Index.get index q := by
  unfold Index.get
  rw [List.find?_cons]
  cases h : Value.goEq k q <;> simp [h]

/-- Keys that are `==` read the same entry. -/
theorem Index.get_congr (index : Index) {k q : Value} (h : Value.goEq k q = true) :
    Index.get index k = Index.get index q := by
  induction index with
  | nil => rfl
  | cons e index ih =>
    obtain ⟨k', bucket⟩ := e
    rw [Index.get_cons, Index.get_cons, ih]
    have : Value.goEq k' k = Value.goEq k' q := by
      cases h1 : Value.goEq k' k <;> cases h2 : Value.goEq k' q <;> try rfl
      · rw [Value.goEq_symm] at h
        rw [Value.goEq_trans h2 h] at h1
        exact h1.symm
      · rw [Value.goEq_trans h1 h] at h2
        exact h2
    rw [this]

/-- Reading after an assignment. -/
theorem Index.get_set (index : Index) (k : Value) (bucket : List Row) (q : Value) :
    Index.get (Index.set index k bucket) q =
      if Value.goEq k q then some bucket else Index.get index q := by
  induction index with
  | nil => simp [Index.set, Index.get_cons, Index.get_nil]
  | cons e index ih =>
    obtain ⟨k', bucket'⟩ := e
    unfold Index.set
    by_cases hk : Value.goEq k' k = true
    · rw [if_pos hk, Index.get_cons, Index.get_cons]
      by_cases hq : Value.goEq k q = true
      · rw [if_pos hq, if_pos (Value.goEq_trans hk hq)]
      · rw [if_neg hq]
        have : ¬ Value.goEq k' q = true := by
          intro h'
          apply hq
          rw [Value.goEq_symm] at hk
          exact Value.goEq_trans hk h'
        rw [if_neg this, if_neg this]
    · rw [if_neg hk, Index.get_cons, Index.get_cons, ih]
      by_cases hq' : Value.goEq k' q = true
      · rw [if_pos hq']
        have : ¬ Value.goEq k q = true := by
          intro h'
          apply hk
          rw [Value.goEq_symm] at h'
          exact Value.goEq_trans hq' h'
        rw [if_neg this, if_pos hq']
      · rw [if_neg hq', if_neg hq']

theorem buildTable_get_aux (rows : List Row) (key : String) (q : Value) (table : Index) :
    Index.get (rows.foldl
        (fun table item =>
          Index.set table (item.index key)
            ((Index.get table (item.index key)).getD [] ++ [item]))
        table) q =
      if (matching rows key q).isEmpty then Index.get table q
      else some ((Index.get table q).getD [] ++ matching rows key q) := by
  induction rows generalizing table with
  | nil => simp [matching]
  | cons b rows ih =>
    rw [List.foldl_cons, ih, Index.get_set]
    by_cases hb : Value.goEq (b.index key) q = true
    · have hm : matching (b :: rows) key q = b :: matching rows key q := by
        simp [matching, List.filter_cons, hb]
      rw [hm, if_pos hb, Index.get_congr table hb]
      by_cases he : (matching rows key q).isEmpty = true
      · rw [if_pos he]
        simp [List.isEmpty_iff.1 he]
      · rw [if_neg he]
        simp
    · have hm : matching (b :: rows) key q = matching rows key q := by
        simp [matching, List.filter_cons, hb]
      rw [hm, if_neg hb]

/-- A lookup in the index of `rows` gives the rows whose key value is `==`
to the one looked up, in their order, and `nil` when there is none. -/
theorem buildTable_get (rows : List Row) (key : String) (q : Value) :
    Index.get (buildTable rows key) q = bucketOf (matching rows key q) := by
  unfold buildTable bucketOf
  rw [buildTable_get_aux]
  by_cases he : (matching rows key q).isEmpty = true
  · rw [if_pos he, if_pos he]; rfl
  · rw [if_neg he, if_neg he]; simp [Index.get_nil]

theorem foldl_emit (item : Row) (find result : List Row) :
    find.foldl (fun result b => result ++ [joinRow item b]) result =
      result ++ find.map (joinRow item) := by
  induction find generalizing result with
  | nil => simp
  | cons b find ih => rw [List.foldl_cons, ih]; simp

theorem foldl_flatMap {α β : Type} (f : α → List β) (l : List α) (acc : List β) :
    l.foldl (fun result item => result ++ f item) acc = acc ++ l.flatMap f := by
  induction l generalizing acc with
  | nil => simp
  | cons a l ih => rw [List.foldl_cons, ih]; simp [List.flatMap_cons]

/-! ## The joins, probe row by probe row -/

theorem emit_bucketOf (item : Row) (ms result : List Row) :
    (match bucketOf ms with
      | some find => find.foldl (fun result b => result ++ [joinRow item b]) result
      | none => result) = result ++ ms.map (joinRow item) := by
  unfold bucketOf
  cases ms with
  | nil => simp
  | cons b ms => simp only [List.isEmpty_cons, Bool.false_eq_true, if_false]; rw [foldl_emit]

/-- The rows `innerJoin` emits, probe row by probe row. -/
theorem innerJoin_eq_flatMap (build probe : List Row) (key : String) :
    innerJoin build probe key =
      probe.flatMap (fun p => (matching build key (p.index key)).map (joinRow p)) := by
  unfold innerJoin
  simp only [buildTable_get, emit_bucketOf]
  rw [foldl_flatMap]
  simp

theorem emit_or_pad (padding item : Row) (ms result : List Row) :
    (match bucketOf ms with
      | some find => find.foldl (fun result b => result ++ [joinRow item b]) result
      | none => result ++ [joinRow padding item]) =
      result ++ (if ms.isEmpty then [joinRow padding item] else ms.map (joinRow item)) := by
  unfold bucketOf
  cases ms with
  | nil => simp
  | cons b ms => simp only [List.isEmpty_cons, Bool.false_eq_true, if_false]; rw [foldl_emit]

/-- The rows `outerJoin` emits, probe row by probe row. -/
theorem outerJoin_eq_flatMap (first : Row) (rest probe : List Row) (key : String) :
    outerJoin (first :: rest) probe key =
      some (probe.flatMap (fun p =>
        if (matching (first :: rest) key (p.index key)).isEmpty then
          [joinRow (makeEmptyRow first) p]
        else (matching (first :: rest) key (p.index key)).map (joinRow p))) := by
  unfold outerJoin
  simp only [List.head?_cons, buildTable_get, emit_or_pad]
  rw [foldl_flatMap]
  simp

/-- C1: `innerJoin` (hash index, then probe) returns the same list, in the
same order, as the nested-loop reference join. -/
theorem innerJoin_eq_nestedLoopJoin (build probe : List Row) (key : String) :
    innerJoin build probe key = nestedLoopJoin build probe key := by
  rw [innerJoin_eq_flatMap]
  rfl

theorem matching_isEmpty (build : List Row) (key : String) (v : Value) :
    (matching build key v).isEmpty = !build.any (fun b => Value.goEq (b.index key) v) := by
  unfold matching
  induction build with
  | nil => rfl
  | cons b build ih =>
    rw [List.filter_cons, List.any_cons]
    cases h : Value.goEq (b.index key) v <;> simp [ih]

theorem length_le_length_flatMap {α β : Type} (f : α → List β) (l : List α)
    (h : ∀ a ∈ l, 1 ≤ (f a).length) : l.length ≤ (l.flatMap f).length := by
  induction l with
  | nil => simp
  | cons a l ih =>
    rw [List.flatMap_cons, List.length_append, List.length_cons]
    have h1 := h a (List.mem_cons_self a l)
    have h2 := ih (fun x hx => h x (List.mem_cons_of_mem a hx))
    omega

theorem length_flatMap_eq_length_iff {α β : Type} (f : α → List β) (l : List α)
    (h : ∀ a ∈ l, 1 ≤ (f a).length) :
    (l.flatMap f).length = l.length ↔ ∀ a ∈ l, (f a).length = 1 := by
  induction l with
  | nil => simp
  | cons a l ih =>
    rw [List.flatMap_cons, List.length_append, List.length_cons, List.forall_mem_cons]
    have h1 := h a (List.mem_cons_self a l)
    have hl : ∀ x ∈ l, 1 ≤ (f x).length := fun x hx => h x (List.mem_cons_of_mem a hx)
    have h2 := length_le_length_flatMap f l hl
    have h3 := ih hl
    constructor
    · intro heq
      have : (l.flatMap f).length = l.length := by omega
      exact ⟨by omega, h3.1 this⟩
    · rintro ⟨ha, hrest⟩
      have := h3.2 hrest
      omega

/-- What `outerJoin` emits for one probe row: its matches, or the padded row. -/
theorem outer_piece_length (padding p : Row) (ms : List Row) :
    (if ms.isEmpty then [joinRow padding p] else ms.map (joinRow p)).length =
      max 1 ms.length := by
  cases ms with
  | nil => simp
  | cons b ms => simp

/-- C2: the length of `innerJoin build probe key` is the sum, over the probe
rows, of the number of build rows with the same key value. -/
theorem innerJoin_length_eq_sum (build probe : List Row) (key : String) :
    (innerJoin build probe key).length =
      (probe.map (fun p =>
        build.countP (fun b => Value.goEq (b.index key) (p.index key)))).sum := by
  rw [innerJoin_eq_flatMap, List.length_flatMap]
  congr 1
  apply List.map_congr_left
  intro p _
  simp [matching, List.countP_eq_length_filter]

/-- C4: for a non-empty build list, `outerJoin` returns a list at least as
long as the probe list. -/
theorem outerJoin_length_ge (first : Row) (rest probe : List Row) (key : String) :
    ∃ result, outerJoin (first :: rest) probe key = some result ∧
      probe.length ≤ result.length := by
  refine ⟨_, outerJoin_eq_flatMap first rest probe key, ?_⟩
  apply length_le_length_flatMap
  intro p _
  rw [outer_piece_length]
  exact le_max_left _ _

/-- C5, as stated, fails in both directions: a probe row without a match
still gives one (padded) row, so the lengths are equal although a row has no
match; and a probe row with two matches gives two rows, so the lengths differ
although every row has a match. -/
theorem outerJoin_length_eq_iff_all_matched_false :
    (∃ result, outerJoin [asset1] [report2] "assetId" = some result ∧
      result.length = [report2].length ∧
      ¬ ∀ p ∈ [report2], ∃ b ∈ [asset1],
          Value.goEq (b.index "assetId") (p.index "assetId") = true) ∧
    (∃ result, outerJoin [report1, report1] [asset1] "assetId" = some result ∧
      result.length ≠ [asset1].length ∧
      ∀ p ∈ [asset1], ∃ b ∈ [report1, report1],
          Value.goEq (b.index "assetId") (p.index "assetId") = true) := by
  refine ⟨⟨_, rfl, by decide, by decide⟩, ⟨_, rfl, by decide, by decide⟩⟩

/-- C5, amended: for a non-empty build list, the length of the result of
`outerJoin` equals the length of the probe list if and only if every probe
row has at most one matching build row. -/
theorem outerJoin_length_eq_iff (first : Row) (rest probe : List Row) (key : String) :
    ∃ result, outerJoin (first :: rest) probe key = some result ∧
      (result.length = probe.length ↔
        ∀ p ∈ probe,
          (first :: rest).countP (fun b => Value.goEq (b.index key) (p.index key)) ≤ 1) := by
  refine ⟨_, outerJoin_eq_flatMap first rest probe key, ?_⟩
  rw [length_flatMap_eq_length_iff]
  · apply forall_congr'
    intro p
    apply imp_congr_right
    intro _
    rw [outer_piece_length, List.countP_eq_length_filter]
    unfold matching
    omega
  · intro p _
    rw [outer_piece_length]
    exact le_max_left _ _

/-! ## Fields of joined and padded rows -/

theorem Row.get_of_set (row : Row) (k : String) (v : Value) (q : String) :
    (row.set k v).get q = if k = q then some v else row.get q := by
  unfold Row.get Row.set
  simp only [List.find?_cons]
  by_cases hkq : k = q
  · simp [hkq]
  · simp only [beq_iff_eq, hkq, if_false]
    have hb : (k == q) = false := by simpa using hkq
    rw [hb]
    simp only []
    congr 1
    induction row.entries with
    | nil => rfl
    | cons e l ih =>
      rw [List.filter_cons]
      by_cases hek : e.1 = k
      · have hne : (e.1 != k) = false := by simp [hek]
        have heq : (e.1 == q) = false := by simpa [hek] using hkq
        rw [hne, List.find?_cons, heq]
        simpa using ih
      · have hne : (e.1 != k) = true := by simpa using hek
        rw [hne]
        simp only [if_true, List.find?_cons]
        rw [ih]

theorem Row.get_foldl_set (g : String × Value → Value) (l : List (String × Value))
    (hl : (l.map Prod.fst).Nodup) (acc : Row) (q : String) :
    (l.foldl (fun row e => row.set e.1 (g e)) acc).get q =
      ((l.find? (fun e => e.1 == q)).map g).or (acc.get q) := by
  induction l generalizing acc with
  | nil => simp
  | cons e l ih =>
    rw [List.map_cons, List.nodup_cons] at hl
    rw [List.foldl_cons, ih hl.2, Row.get_of_set, List.find?_cons]
    by_cases heq : e.1 = q
    · have hnone : l.find? (fun e => e.1 == q) = none := by
        rw [List.find?_eq_none]
        intro x hx hxq
        apply hl.1
        rw [heq]
        exact List.mem_map.2 ⟨x, hx, by simpa using hxq⟩
      simp [heq, hnone]
    · have hb : (e.1 == q) = false := by simpa using heq
      simp [heq, hb]

theorem Row.get_empty (q : String) : Row.empty.get q = none := rfl

/-- The fields of a joined row: those of the right row, then those of the
left row that the right row does not have. -/
theorem joinRow_get (leftRow rightRow : Row) (q : String) :
    (joinRow leftRow rightRow).get q = (rightRow.get q).or (leftRow.get q) := by
  unfold joinRow
  simp only []
  rw [Row.get_foldl_set Prod.snd _ rightRow.nodupKeys,
    Row.get_foldl_set Prod.snd _ leftRow.nodupKeys, Row.get_empty]
  unfold Row.get
  simp

/-- The fields of the padding row: the field names of `row`, all `nil`. -/
theorem makeEmptyRow_get (row : Row) (q : String) :
    (makeEmptyRow row).get q = (row.get q).map (fun _ => Value.null) := by
  unfold makeEmptyRow
  simp only []
  rw [Row.get_foldl_set (fun _ => Value.null) _ row.nodupKeys, Row.get_empty]
  unfold Row.get
  cases row.entries.find? (fun e => e.1 == q) <;> rfl

/-- C3: for a non-empty build list `first :: rest`, `outerJoin` succeeds and
gives, for each probe row in order, its matches joined in build order when it
has one, and otherwise the single row `joinRow (makeEmptyRow first) p`; the
padding row `makeEmptyRow first` has the field names of `first`, all `nil`. -/
theorem outerJoin_eq_paddedJoin (first : Row) (rest probe : List Row) (key : String) :
    outerJoin (first :: rest) probe key =
      some (paddedJoin (makeEmptyRow first) (first :: rest) probe key) ∧
    ∀ k, (makeEmptyRow first).get k = (first.get k).map (fun _ => Value.null) := by
  refine ⟨?_, makeEmptyRow_get first⟩
  rw [outerJoin_eq_flatMap]
  unfold paddedJoin
  congr 2
  funext p
  rw [matching_isEmpty]
  cases h : (first :: rest).any (fun b => Value.goEq (b.index key) (p.index key)) <;>
    simp [matching]

theorem matching_eq_nil (build : List Row) (key : String) (v : Value)
    (h : ∀ b ∈ build, Value.goEq (b.index key) v = false) : matching build key v = [] := by
  unfold matching
  rw [List.filter_eq_nil_iff]
  intro b hb
  simp [h b hb]

/-- Key values that are `==` select the same build rows. -/
theorem matching_congr (build : List Row) (key : String) {v w : Value}
    (h : Value.goEq v w = true) : matching build key v = matching build key w := by
  unfold matching
  apply List.filter_congr
  intro b _
  cases h1 : Value.goEq (b.index key) v <;> cases h2 : Value.goEq (b.index key) w <;> try rfl
  · rw [Value.goEq_symm] at h
    rw [Value.goEq_trans h2 h] at h1
    exact h1.symm
  · rw [Value.goEq_trans h1 h] at h2
    exact h2

/-- C6: for a non-empty build list `first :: rest` and a probe row `p` with no
matching build row, `outerJoin` emits for `p` (between the rows of the probe
rows before it and those of the probe rows after it) one row, whose fields
are the fields of `p` with the values of `p`, and the field names of `first`
that `p` does not have, with value `nil`. -/
theorem outerJoin_padded_row (first : Row) (rest pre post : List Row) (p : Row)
    (key : String)
    (hno : ∀ b ∈ first :: rest, Value.goEq (b.index key) (p.index key) = false) :
    ∃ before after padded,
      outerJoin (first :: rest) pre key = some before ∧
      outerJoin (first :: rest) post key = some after ∧
      outerJoin (first :: rest) (pre ++ p :: post) key = some (before ++ padded :: after) ∧
      ∀ k, padded.get k =
        match p.get k with
        | some v => some v
        | none => if (first.get k).isSome then some Value.null else none := by
  refine ⟨_, _, joinRow (makeEmptyRow first) p, outerJoin_eq_flatMap first rest pre key,
    outerJoin_eq_flatMap first rest post key, ?_, ?_⟩
  · rw [outerJoin_eq_flatMap, List.flatMap_append, List.flatMap_cons,
      matching_eq_nil _ _ _ hno]
    simp
  · intro k
    rw [joinRow_get, makeEmptyRow_get]
    cases p.get k <;> cases first.get k <;> rfl

/-- C6, at an instance: `report2` has no match in `[asset1]`. -/
theorem outerJoin_padded_row_witness :
    (∀ b ∈ [asset1], Value.goEq (b.index "assetId") (report2.index "assetId") = false) ∧
    ∃ before after padded,
      outerJoin [asset1] [report1] "assetId" = some before ∧
      outerJoin [asset1] [report1] "assetId" = some after ∧
      outerJoin [asset1] ([report1] ++ report2 :: [report1]) "assetId" =
        some (before ++ padded :: after) ∧
      ∀ k, padded.get k =
        match report2.get k with
        | some v => some v
        | none => if (asset1.get k).isSome then some Value.null else none :=
  ⟨by decide, outerJoin_padded_row asset1 [] [report1] [report1] report2 "assetId" (by decide)⟩

/-- C7: `outerJoin` fails exactly when the build list is empty, whatever the
probe list; so `product` fails for `"right"` with an empty left list and for
`"left"` with an empty right list. -/
theorem outerJoin_fails_iff_build_empty (build probe leftList rightList : List Row)
    (key : String) :
    (outerJoin build probe key = none ↔ build = []) ∧
    product [] rightList key "right" = none ∧
    product leftList [] key "left" = none := by
  refine ⟨?_, rfl, rfl⟩
  cases build with
  | nil => simp [outerJoin]
  | cons first rest => rw [outerJoin_eq_flatMap]; simp

/-- C8, as stated, fails: for the token `"full"`, `product` does not fail; it
returns the `nil` list. -/
theorem product_full_returns :
    product [asset1] [report1] "assetId" "full" = some [] ∧
    product [asset1] [report1] "assetId" "full" ≠ none := by
  decide

/-- C8, amended: for every token other than `"inner"`, `"left"` and
`"right"`, `product` returns the `nil` (empty) list and does not fail. -/
theorem product_other_token (leftList rightList : List Row) (key token : String)
    (hinner : token ≠ "inner") (hleft : token ≠ "left") (hright : token ≠ "right") :
    product leftList rightList key token = some [] := by
  unfold product
  rw [if_neg hinner, if_neg hright, if_neg hleft]

/-- C8, amended, at the token `"full"`. -/
theorem product_other_token_witness :
    ("full" ≠ "inner" ∧ "full" ≠ "left" ∧ "full" ≠ "right") ∧
    product [asset1] [report1] "assetId" "full" = some [] :=
  ⟨by decide, product_other_token [asset1] [report1] "assetId" "full"
    (by decide) (by decide) (by decide)⟩

theorem Row.index_of_get_none (row : Row) (key : String) (h : row.get key = none) :
    row.index key = Value.null := by
  unfold Row.index
  rw [h]
  rfl

/-- C9, as stated, fails: the probe row `reportNoId` has no `assetId`, yet
`innerJoin` emits a row for it, joined with the build row `assetNoId`, which
has no `assetId` either; and `outerJoin` emits that joined row, which is not
the padded row. -/
theorem probe_without_key_matches :
    reportNoId.get "assetId" = none ∧
    innerJoin [assetNoId] [reportNoId] "assetId" = [joinRow reportNoId assetNoId] ∧
    innerJoin [assetNoId] [reportNoId] "assetId" ≠ [] ∧
    outerJoin [assetNoId] [reportNoId] "assetId" = some [joinRow reportNoId assetNoId] ∧
    outerJoin [assetNoId] [reportNoId] "assetId" ≠
      some [joinRow (makeEmptyRow assetNoId) reportNoId] := by
  decide

/-- C9, amended: a probe row `p` without the key field reads as `nil` there
and matches the build rows whose key value is `nil`. `innerJoin` emits for `p`
the rows `joinRow p b` for those build rows `b`, in build order (no row when
there is none); `outerJoin`, on a non-empty build list, emits the same rows,
or the one padded row when there is none. Neither fails. -/
theorem probe_without_key (build : List Row) (first : Row) (rest pre post : List Row)
    (p : Row) (key : String) (hp : p.get key = none) :
    innerJoin build (pre ++ p :: post) key =
      innerJoin build pre key ++ (matching build key Value.null).map (joinRow p) ++
        innerJoin build post key ∧
    ∃ before after,
      outerJoin (first :: rest) pre key = some before ∧
      outerJoin (first :: rest) post key = some after ∧
      outerJoin (first :: rest) (pre ++ p :: post) key =
        some (before ++
          (if (matching (first :: rest) key Value.null).isEmpty then
            [joinRow (makeEmptyRow first) p]
          else (matching (first :: rest) key Value.null).map (joinRow p)) ++ after) := by
  have hnull := Row.index_of_get_none p key hp
  constructor
  · simp only [innerJoin_eq_flatMap, List.flatMap_append, List.flatMap_cons, hnull,
      List.append_assoc]
  · refine ⟨_, _, outerJoin_eq_flatMap first rest pre key,
      outerJoin_eq_flatMap first rest post key, ?_⟩
    simp only [outerJoin_eq_flatMap, List.flatMap_append, List.flatMap_cons, hnull,
      List.append_assoc]

/-- C9, amended, at an instance: `reportNoId` has no `assetId`. -/
theorem probe_without_key_witness :
    reportNoId.get "assetId" = none ∧
    (innerJoin [asset1, assetNoId] ([report1] ++ reportNoId :: [report2]) "assetId" =
      innerJoin [asset1, assetNoId] [report1] "assetId" ++
        (matching [asset1, assetNoId] "assetId" Value.null).map (joinRow reportNoId) ++
        innerJoin [asset1, assetNoId] [report2] "assetId" ∧
    ∃ before after,
      outerJoin (asset1 :: [assetNoId]) [report1] "assetId" = some before ∧
      outerJoin (asset1 :: [assetNoId]) [report2] "assetId" = some after ∧
      outerJoin (asset1 :: [assetNoId]) ([report1] ++ reportNoId :: [report2]) "assetId" =
        some (before ++
          (if (matching (asset1 :: [assetNoId]) "assetId" Value.null).isEmpty then
            [joinRow (makeEmptyRow asset1) reportNoId]
          else (matching (asset1 :: [assetNoId]) "assetId" Value.null).map
            (joinRow reportNoId)) ++ after)) :=
  ⟨by decide, probe_without_key [asset1, assetNoId] asset1 [assetNoId] [report1] [report2]
    reportNoId "assetId" (by decide)⟩

/-- C10: when the build list has exactly `k` rows with key value `v` and the
probe list is the one row `p` with key value `v`, `innerJoin` returns exactly
`k` rows, the `i`-th being `joinRow p b` for the `i`-th build row `b` with
key value `v`, in build order. -/
theorem innerJoin_fanout (build : List Row) (p : Row) (key : String) (v : Value) (k : Nat)
    (hp : Value.goEq (p.index key) v = true)
    (hk : build.countP (fun b => Value.goEq (b.index key) v) = k) :
    (innerJoin build [p] key).length = k ∧
    ∀ i, i < k →
      ∃ b, (build.filter (fun b => Value.goEq (b.index key) v))[i]? = some b ∧
        (innerJoin build [p] key)[i]? = some (joinRow p b) := by
  have hjoin : innerJoin build [p] key = (matching build key v).map (joinRow p) := by
    rw [innerJoin_eq_flatMap, List.flatMap_cons, List.flatMap_nil, List.append_nil,
      matching_congr build key hp]
  rw [List.countP_eq_length_filter] at hk
  rw [hjoin]
  unfold matching
  refine ⟨by rw [List.length_map, hk], ?_⟩
  intro i hi
  rw [← hk] at hi
  refine ⟨(build.filter (fun b => Value.goEq (b.index key) v))[i], ?_, ?_⟩
  · exact List.getElem?_eq_getElem hi
  · rw [List.getElem?_map, List.getElem?_eq_getElem hi]
    rfl

/-- C10, at an instance: two of the three build rows have `assetId` 1. -/
theorem innerJoin_fanout_witness :
    (Value.goEq (asset1.index "assetId") (Value.int 1) = true ∧
      [report1, report2, report1].countP
        (fun b => Value.goEq (b.index "assetId") (Value.int 1)) = 2) ∧
    ((innerJoin [report1, report2, report1] [asset1] "assetId").length = 2 ∧
    ∀ i, i < 2 →
      ∃ b, ([report1, report2, report1].filter
          (fun b => Value.goEq (b.index "assetId") (Value.int 1)))[i]? = some b ∧
        (innerJoin [report1, report2, report1] [asset1] "assetId")[i]? =
          some (joinRow asset1 b)) :=
  ⟨by decide, innerJoin_fanout [report1, report2, report1] asset1 "assetId" (Value.int 1) 2
    (by decide) (by decide)⟩

/-! ## `joinRow`, `buildTable` and the dispatch -/

theorem Row.get_eq_none_iff (row : Row) (k : String) :
    row.get k = none ↔ k ∉ row.fields := by
  unfold Row.get Row.fields
  rw [Option.map_eq_none', List.find?_eq_none, List.mem_map]
  constructor
  · rintro h ⟨e, he, hk⟩
    exact h e he (by simp [hk])
  · intro h e he hk
    exact h ⟨e, he, by simpa using hk⟩

/-- C11: the field names of `joinRow a b` are those of `a` together with
those of `b`; a field of `b` has the value it has in `b`, and a field that
`b` does not have has the value it has in `a` (if `a` has it). -/
theorem joinRow_fields (a b : Row) (k : String) :
    (k ∈ (joinRow a b).fields ↔ k ∈ a.fields ∨ k ∈ b.fields) ∧
    (joinRow a b).get k =
      match b.get k with
      | some v => some v
      | none => a.get k := by
  have hget : (joinRow a b).get k =
      match b.get k with
      | some v => some v
      | none => a.get k := by
    rw [joinRow_get]
    cases b.get k <;> rfl
  refine ⟨?_, hget⟩
  have ha := Row.get_eq_none_iff a k
  have hb := Row.get_eq_none_iff b k
  have hj := Row.get_eq_none_iff (joinRow a b) k
  rw [hget] at hj
  cases hbk : b.get k with
  | none =>
    rw [hbk] at hj hb
    simp only [true_iff] at hb
    constructor
    · intro hmem
      left
      by_contra hna
      exact (hj.1 (ha.2 hna)) hmem
    · rintro (hmem | hmem)
      · by_contra hnj
        exact (ha.1 (hj.2 hnj)) hmem
      · exact absurd hmem hb
  | some v =>
    rw [hbk] at hj hb
    have hbmem : k ∈ b.fields := by
      by_contra hnb
      exact absurd (hb.2 hnb) (by simp)
    constructor
    · intro _
      exact Or.inr hbmem
    · intro _
      by_contra hnj
      exact absurd (hj.2 hnj) (by simp)

/-- C12: a lookup of `v` in `buildTable rows key` gives the rows whose value
at `key` is `==` to `v`, in their input order, and `nil` when no row has such
a value; the index of the empty list is the empty index. -/
theorem buildTable_lookup (rows : List Row) (key : String) (v : Value) :
    Index.get (buildTable rows key) v =
      (if rows.any (fun r => Value.goEq (r.index key) v) then
        some (rows.filter (fun r => Value.goEq (r.index key) v))
      else none) ∧
    buildTable [] key = [] := by
  refine ⟨?_, rfl⟩
  rw [buildTable_get]
  unfold bucketOf
  rw [matching_isEmpty]
  cases rows.any (fun r => Value.goEq (r.index key) v) <;> simp [matching]

/-- C14: `product` gives `innerJoin` with the left list as build for
`"inner"`, `outerJoin` with the left list as build for `"right"`, and
`outerJoin` with the right list as build for `"left"`; so a left join is the
right join of the swapped inputs. -/
theorem product_dispatch (leftList rightList : List Row) (key : String) :
    product leftList rightList key "inner" = some (innerJoin leftList rightList key) ∧
    product leftList rightList key "right" = outerJoin leftList rightList key ∧
    product leftList rightList key "left" = outerJoin rightList leftList key ∧
    product leftList rightList key "left" = product rightList leftList key "right" := by
  refine ⟨rfl, rfl, rfl, rfl⟩

/-- C15: `innerJoin` gives the empty list when the build list is empty, and
when the probe list is empty. -/
theorem innerJoin_empty (build probe : List Row) (key : String) :
    innerJoin [] probe key = [] ∧ innerJoin build [] key = [] := by
  refine ⟨?_, rfl⟩
  rw [innerJoin_eq_flatMap]
  simp [matching]

/-! ## The rows the joins emit -/

theorem mem_matching {build : List Row} {key : String} {v : Value} {b : Row} :
    b ∈ matching build key v ↔ b ∈ build ∧ Value.goEq (b.index key) v = true := by
  unfold matching
  exact List.mem_filter

theorem joinedFrom_joinRow {build probe : List Row} {key : String} {p b : Row}
    (hp : p ∈ probe) (hb : b ∈ matching build key (p.index key)) :
    JoinedFrom build probe key (joinRow p b) := by
  refine ⟨p, hp, b, (mem_matching.1 hb).1, (mem_matching.1 hb).2, rfl, ?_⟩
  intro k v hv
  rw [joinRow_get, hv]
  rfl

/-- Every row of `innerJoin` comes from a probe row and a matching build row. -/
theorem joinedFrom_of_mem_innerJoin {build probe : List Row} {key : String} {row : Row}
    (h : row ∈ innerJoin build probe key) : JoinedFrom build probe key row := by
  rw [innerJoin_eq_flatMap, List.mem_flatMap] at h
  obtain ⟨p, hp, hrow⟩ := h
  obtain ⟨b, hb, rfl⟩ := List.mem_map.1 hrow
  exact joinedFrom_joinRow hp hb

/-- Every row of `outerJoin` comes from a probe row and a matching build row,
or is the padded row of a probe row without a match. -/
theorem joinedFrom_or_paddedFrom {first : Row} {rest probe : List Row} {key : String}
    {res : List Row} {row : Row} (hres : outerJoin (first :: rest) probe key = some res)
    (h : row ∈ res) :
    JoinedFrom (first :: rest) probe key row ∨
      PaddedFrom (makeEmptyRow first) (first :: rest) probe key row := by
  rw [outerJoin_eq_flatMap] at hres
  cases hres
  rw [List.mem_flatMap] at h
  obtain ⟨p, hp, hrow⟩ := h
  cases hm : matching (first :: rest) key (p.index key) with
  | nil =>
    rw [hm] at hrow
    simp only [List.isEmpty_nil, if_true, List.mem_singleton] at hrow
    right
    refine ⟨p, hp, ?_, hrow⟩
    intro b hb
    cases hg : Value.goEq (b.index key) (p.index key) with
    | false => rfl
    | true =>
      have : b ∈ matching (first :: rest) key (p.index key) := mem_matching.2 ⟨hb, hg⟩
      rw [hm] at this
      cases this
  | cons b ms =>
    rw [hm] at hrow
    simp only [List.isEmpty_cons, Bool.false_eq_true, if_false] at hrow
    obtain ⟨b', hb', rfl⟩ := List.mem_map.1 hrow
    left
    rw [← hm] at hb'
    exact joinedFrom_joinRow hp hb'

/-- C13: for a one-row left list `[l]` and a non-empty right list
`first :: rest` with no row having the key value of `l`, `product` for
`"left"` gives exactly one row, holding the fields of `l` with their values
and the field names of `first` that `l` lacks with `nil`; for
`[{assetId: 1, name: "A"}]` and `[{assetId: 2, region: "X"}]` that row has
the three fields `assetId: 1`, `name: "A"`, `region: nil`. -/
theorem product_left_unmatched (l first : Row) (rest : List Row) (key : String)
    (hno : ∀ r ∈ first :: rest, Value.goEq (r.index key) (l.index key) = false) :
    (∃ row, product [l] (first :: rest) key "left" = some [row] ∧
      ∀ k, row.get k =
        match l.get k with
        | some v => some v
        | none => if (first.get k).isSome then some Value.null else none) ∧
    (∃ row, product [asset1] [report2] "assetId" "left" = some [row] ∧
      row.fields.length = 3 ∧ row.get "assetId" = some (Value.int 1) ∧
      row.get "name" = some (Value.str "A") ∧ row.get "region" = some Value.null) := by
  constructor
  · refine ⟨joinRow (makeEmptyRow first) l, ?_, ?_⟩
    · show outerJoin (first :: rest) [l] key = _
      rw [outerJoin_eq_flatMap, List.flatMap_cons, List.flatMap_nil,
        matching_eq_nil _ _ _ hno]
      rfl
    · intro k
      rw [joinRow_get, makeEmptyRow_get]
      cases l.get k <;> cases first.get k <;> rfl
  · exact ⟨_, rfl, by decide, by decide, by decide, by decide⟩

/-- C13, at the literal example of the spec. -/
theorem product_left_unmatched_witness :
    (∀ r ∈ report2 :: [], Value.goEq (r.index "assetId") (asset1.index "assetId") = false) ∧
    ((∃ row, product [asset1] (report2 :: []) "assetId" "left" = some [row] ∧
      ∀ k, row.get k =
        match asset1.get k with
        | some v => some v
        | none => if (report2.get k).isSome then some Value.null else none) ∧
    (∃ row, product [asset1] [report2] "assetId" "left" = some [row] ∧
      row.fields.length = 3 ∧ row.get "assetId" = some (Value.int 1) ∧
      row.get "name" = some (Value.str "A") ∧ row.get "region" = some Value.null)) :=
  ⟨by decide, product_left_unmatched asset1 report2 [] "assetId" (by decide)⟩

/-- C16: every row of `innerJoin` is `joinRow p b` for a probe row `p` and a
build row `b` with equal key values, and holds the value of `b` on every
field of `b`; every row of `outerJoin` is such a row or a padded row. So in
`product` the rows of the left list win for `"inner"` and `"right"`, where
the left list is the build list, and the rows of the right list win for
`"left"`, where the right list is the build list. -/
theorem joined_rows_build_wins (build probe leftList rightList : List Row) (first : Row)
    (rest : List Row) (key : String) :
    (∀ row ∈ innerJoin build probe key, JoinedFrom build probe key row) ∧
    (∃ res, outerJoin (first :: rest) probe key = some res ∧
      ∀ row ∈ res, JoinedFrom (first :: rest) probe key row ∨
        PaddedFrom (makeEmptyRow first) (first :: rest) probe key row) ∧
    (∃ res, product leftList rightList key "inner" = some res ∧
      ∀ row ∈ res, JoinedFrom leftList rightList key row) ∧
    (∃ res, product (first :: rest) rightList key "right" = some res ∧
      ∀ row ∈ res, JoinedFrom (first :: rest) rightList key row ∨
        PaddedFrom (makeEmptyRow first) (first :: rest) rightList key row) ∧
    (∃ res, product leftList (first :: rest) key "left" = some res ∧
      ∀ row ∈ res, JoinedFrom (first :: rest) leftList key row ∨
        PaddedFrom (makeEmptyRow first) (first :: rest) leftList key row) := by
  refine ⟨fun row h => joinedFrom_of_mem_innerJoin h, ?_, ?_, ?_, ?_⟩
  · exact ⟨_, outerJoin_eq_flatMap first rest probe key,
      fun row h => joinedFrom_or_paddedFrom (outerJoin_eq_flatMap first rest probe key) h⟩
  · exact ⟨_, rfl, fun row h => joinedFrom_of_mem_innerJoin h⟩
  · exact ⟨_, outerJoin_eq_flatMap first rest rightList key,
      fun row h => joinedFrom_or_paddedFrom (outerJoin_eq_flatMap first rest rightList key) h⟩
  · exact ⟨_, outerJoin_eq_flatMap first rest leftList key,
      fun row h => joinedFrom_or_paddedFrom (outerJoin_eq_flatMap first rest leftList key) h⟩

/-! ## Inner and outer join compared -/

theorem length_flatMap_add_countP {α β : Type} (f g : α → List β) (c : α → Bool)
    (l : List α) (h : ∀ a ∈ l, (g a).length = (f a).length + (if c a then 1 else 0)) :
    (l.flatMap g).length = (l.flatMap f).length + l.countP c := by
  induction l with
  | nil => simp
  | cons a l ih =>
    have h1 := h a (List.mem_cons_self a l)
    have h2 := ih (fun x hx => h x (List.mem_cons_of_mem a hx))
    rw [List.flatMap_cons, List.flatMap_cons, List.length_append, List.length_append,
      List.countP_cons, h1, h2]
    omega

theorem flatMap_congr_mem {α β : Type} (f g : α → List β) (l : List α)
    (h : ∀ a ∈ l, f a = g a) : l.flatMap f = l.flatMap g := by
  induction l with
  | nil => rfl
  | cons a l ih =>
    rw [List.flatMap_cons, List.flatMap_cons, h a (List.mem_cons_self a l),
      ih (fun x hx => h x (List.mem_cons_of_mem a hx))]

theorem sum_map_ite_eq_countP {β : Type} (c : β → Bool) (bs : List β) :
    (bs.map (fun b => if c b then 1 else 0)).sum = bs.countP c := by
  induction bs with
  | nil => rfl
  | cons b bs ih =>
    rw [List.map_cons, List.sum_cons, ih, List.countP_cons]
    omega

/-- Counting the pairs of a relation row by row, from either side. -/
theorem sum_countP_comm {α β : Type} (r : α → β → Bool) (as : List α) (bs : List β) :
    (bs.map (fun b => as.countP (fun a => r a b))).sum =
      (as.map (fun a => bs.countP (fun b => r a b))).sum := by
  induction as with
  | nil => simp
  | cons a as ih =>
    rw [List.map_cons, List.sum_cons, ← ih, ← sum_map_ite_eq_countP (fun b => r a b) bs,
      ← List.sum_map_add]
    congr 1
    apply List.map_congr_left
    intro b _
    rw [List.countP_cons]
    omega

theorem sum_countP_eq_length_product {α β : Type} (r : α → β → Bool) (as : List α)
    (bs : List β) :
    (as.map (fun a => bs.countP (fun b => r a b))).sum =
      ((as ×ˢ bs).filter (fun ab => r ab.1 ab.2)).length := by
  induction as with
  | nil => rfl
  | cons a as ih =>
    rw [List.map_cons, List.sum_cons, ih, List.product_cons, List.filter_append,
      List.length_append, List.filter_map, List.length_map, List.countP_eq_length_filter]
    rfl

/-- C17: for a non-empty build list, the result of `outerJoin` has as many
rows as `innerJoin` gives plus one for each probe row that has no matching
build row. -/
theorem outerJoin_length_eq_innerJoin_add (first : Row) (rest probe : List Row)
    (key : String) :
    ∃ res, outerJoin (first :: rest) probe key = some res ∧
      res.length = (innerJoin (first :: rest) probe key).length +
        probe.countP (fun p =>
          !(first :: rest).any (fun b => Value.goEq (b.index key) (p.index key))) := by
  refine ⟨_, outerJoin_eq_flatMap first rest probe key, ?_⟩
  rw [innerJoin_eq_flatMap]
  apply length_flatMap_add_countP
  intro p _
  rw [← matching_isEmpty]
  cases matching (first :: rest) key (p.index key) <;> simp

/-- C18: for a non-empty build list and a probe list in which every row has
a matching build row, `outerJoin` gives the list `innerJoin` gives. -/
theorem outerJoin_eq_innerJoin (first : Row) (rest probe : List Row) (key : String)
    (hall : ∀ p ∈ probe, ∃ b ∈ first :: rest,
      Value.goEq (b.index key) (p.index key) = true) :
    outerJoin (first :: rest) probe key = some (innerJoin (first :: rest) probe key) := by
  rw [outerJoin_eq_flatMap, innerJoin_eq_flatMap]
  congr 1
  apply flatMap_congr_mem
  intro p hp
  obtain ⟨b, hb, hg⟩ := hall p hp
  have hmem : b ∈ matching (first :: rest) key (p.index key) := mem_matching.2 ⟨hb, hg⟩
  cases hm : matching (first :: rest) key (p.index key) with
  | nil => rw [hm] at hmem; cases hmem
  | cons b' ms => simp

/-- C18, at an instance: both probe rows have `assetId` 1, as `report1` has. -/
theorem outerJoin_eq_innerJoin_witness :
    (∀ p ∈ [asset1, asset1], ∃ b ∈ report1 :: [report2],
      Value.goEq (b.index "assetId") (p.index "assetId") = true) ∧
    outerJoin (report1 :: [report2]) [asset1, asset1] "assetId" =
      some (innerJoin (report1 :: [report2]) [asset1, asset1] "assetId") :=
  ⟨by decide, outerJoin_eq_innerJoin report1 [report2] [asset1, asset1] "assetId"
    (by decide)⟩

/-- C19: `innerJoin` gives as many rows with the two lists in either role:
the number of pairs of a row of the one and a row of the other with equal
key values. -/
theorem innerJoin_length_symm (as bs : List Row) (key : String) :
    (innerJoin as bs key).length = (innerJoin bs as key).length ∧
    (innerJoin as bs key).length =
      ((as ×ˢ bs).filter
        (fun ab => Value.goEq (ab.1.index key) (ab.2.index key))).length := by
  have hlen : ∀ build probe : List Row, (innerJoin build probe key).length =
      (probe.map (fun p =>
        build.countP (fun b => Value.goEq (b.index key) (p.index key)))).sum := by
    intro build probe
    rw [innerJoin_eq_flatMap, List.length_flatMap]
    congr 1
    apply List.map_congr_left
    intro p _
    simp [matching, List.countP_eq_length_filter]
  constructor
  · rw [hlen as bs, hlen bs as,
      sum_countP_comm (fun a b => Value.goEq (a.index key) (b.index key)) as bs]
    congr 1
    apply List.map_congr_left
    intro a _
    congr 1
    funext b
    exact Value.goEq_symm _ _
  · rw [hlen as bs,
      sum_countP_comm (fun a b => Value.goEq (a.index key) (b.index key)) as bs,
      sum_countP_eq_length_product]

end HashJoin
